import Mathlib

/-!
# Verification of the Hillnote MCP server's content-editing and tabular-database core

Shallow embedding of the content-editing subsystem (`src/tools/content.js`:
`insertContent`, `deleteContent`) and the tabular database subsystem
(`database.js`: `readDatabase`, `addRows`, `updateRows`, `deleteColumn`,
plus the front-matter codec wrappers).

Modelling conventions:
* JavaScript strings are modelled as `List Char`; the helper `chars` converts
  a Lean string literal.  Offsets are code-unit counts (documents in scope are
  treated as sequences of UTF-16 units; surrogate-pair subtleties are outside
  every claim's inputs).
* Filesystem state relevant to a database directory is a finite association
  list from file name to file payload.  Row files are stored in parsed form
  (front-matter map, body); this is justified for the database operations by
  the codec contract of spec §4.1 and keeps the database operations
  independent of the concrete YAML surface syntax.  The codec itself is
  modelled separately (see `serializeFM` / `parseFM`).
* `localeCompare` is modelled as code-point lexicographic comparison and
  `toLowerCase` as per-character `Char.toLower`; both agree with JavaScript on
  the ASCII inputs exercised here.
-/

set_option maxHeartbeats 1000000
set_option synthInstance.maxHeartbeats 400000

namespace Hillnote

/-- Character-list form of a string literal (JS strings are `List Char` here). -/
def chars (s : String) : List Char := s.data

/-- Whitespace test used by `String.prototype.trim` (ASCII white space,
matching the characters that can occur in the inputs considered). -/
def isWs (c : Char) : Bool :=
  c == ' ' || c == '\t' || c == '\n' || c == '\r' || c == '\x0b' || c == '\x0c'

/-- `String.prototype.trim`: drop whitespace from both ends. -/
def jsTrim (s : List Char) : List Char :=
  ((s.dropWhile isWs).reverse.dropWhile isWs).reverse

/-- `str.split('\n')`: always returns at least one (possibly empty) line. -/
def splitLines : List Char → List (List Char)
  | [] => [[]]
  | c :: cs =>
    if c = '\n' then [] :: splitLines cs
    else
      match splitLines cs with
      | [] => [[c]]
      | l :: ls => (c :: l) :: ls

/-- `lines.join('\n')`. -/
def joinLines : List (List Char) → List Char
  | [] => []
  | l :: ls =>
    match ls with
    | [] => l
    | _ :: _ => l ++ '\n' :: joinLines ls

/-- Index of the first occurrence of `pat` in `s` (`String.prototype.indexOf`
restricted to a search from offset 0), `none` when absent. -/
def firstMatch (pat : List Char) : List Char → Option Nat
  | [] => if pat.isEmpty then some 0 else none
  | c :: t =>
    if pat.isPrefixOf (c :: t) then some 0
    else (firstMatch pat t).map (· + 1)

/-- `s.indexOf(pat, from)`. -/
def indexOfFrom (s pat : List Char) (start : Nat) : Option Nat :=
  (firstMatch pat (s.drop start)).map (· + start)

/-- `s.includes(pat)`. -/
def containsSub (s pat : List Char) : Bool :=
  (firstMatch pat s).isSome

/-- `str.toLowerCase()` (per-character, exact on ASCII). -/
def toLowerList (s : List Char) : List Char := s.map Char.toLower

/-- Case-insensitive `includes`, as in `hay.toLowerCase().includes(needle.toLowerCase())`. -/
def ciContains (hay needle : List Char) : Bool :=
  containsSub (toLowerList hay) (toLowerList needle)

/-- `str.replace(pat, rep)` for a plain-string pattern: first occurrence only. -/
def replaceFirst (pat rep s : List Char) : List Char :=
  match firstMatch pat s with
  | none => s
  | some i => s.take i ++ rep ++ s.drop (i + pat.length)

/-!
## PositionalEditor: `insertContent` (content.js lines 10-252)

Input validation (lines 12-37) rejects strings other than "start"/"end" and
negative or non-finite numbers; `InsertPos` therefore ranges over the inputs
that reach the editing logic, with `Option InsertPos` covering the
null/undefined position (treated as "end", line 62).
-/

inductive InsertPos where
  | start
  | stop
  | num (n : Nat)
deriving DecidableEq, Repr

/-- The loop of content.js lines 71-78: first line index `i` (0-based,
relative) with `charCount + lines[i].length >= actualPosition`. -/
def insLineAux : List (List Char) → Nat → Nat → Option Nat
  | [], _, _ => none
  | l :: ls, cc, a =>
    if cc + l.length ≥ a then some 0
    else (insLineAux ls (cc + l.length + 1) a).map (· + 1)

/-- Which line a clamped character offset falls on (content.js lines 70-79);
falls back to `lines.length` when the loop finds no line. -/
def insertionLineOf (lines : List (List Char)) (a : Nat) : Nat :=
  match insLineAux lines 0 a with
  | some i => i
  | none => lines.length

/-- `(actualPosition, insertionLine)` for a document and position
(content.js lines 55-80).  Numeric positions are clamped to
`[0, content.length]`. -/
def insertionParams (content : List Char) (pos : Option InsertPos) : Nat × Nat :=
  match pos with
  | some .start => (0, 0)
  | some .stop => (content.length, (splitLines content).length)
  | none => (content.length, (splitLines content).length)
  | some (.num p) => (min p content.length, insertionLineOf (splitLines content) (min p content.length))

/-- The line reported as immediately preceding the insertion point
(content.js lines 84-92, including the `(beginning of document)` sentinel). -/
def lineBeforeInsertion (lines : List (List Char)) (il : Nat) : List Char :=
  if il > 0 ∧ il ≤ lines.length then lines.getD (il - 1) []
  else if il = 0 then chars "(beginning of document)"
  else if il ≥ lines.length then lines.getD (lines.length - 1) []
  else []

structure Occurrence where
  lineNumber : Nat
  afterPosition : Nat
  contextBefore : List Char
  contextAfter : List Char
deriving DecidableEq, Repr

/-- One entry of the `occurrences` array (content.js lines 100-105):
1-based line number, character offset of the end of that line, and one line of
context on each side (with the code's `|| '(beginning)'` / `|| '(end)'`
fallbacks, which also fire on empty context lines). -/
def mkOccurrence (lines : List (List Char)) (idx : Nat) : Occurrence :=
  { lineNumber := idx + 1
    afterPosition := (joinLines (lines.take (idx + 1))).length
    contextBefore :=
      let cb := lines.getD (idx - 1) []
      if cb = [] then chars "(beginning)" else cb
    contextAfter :=
      let ca := lines.getD (idx + 1) []
      if ca = [] then chars "(end)" else ca }

/-- All lines equal to `e`, with their diagnostics (content.js lines 97-107). -/
def occurrencesOf (lines : List (List Char)) (e : List Char) : List Occurrence :=
  (List.range lines.length).filterMap
    (fun i => if lines.getD i [] = e then some (mkOccurrence lines i) else none)

structure InsertResult where
  success : Bool
  newDoc : List Char
  expected : Option (List Char)
  actual : Option (List Char)
  curLine : Nat
  curChar : Nat
  suggestedPositions : Option (List Occurrence)
deriving DecidableEq, Repr

/-- The success path of `insertContent` (content.js lines 127-243; the
preview/stats fields of the JS result that no claim mentions are omitted).
`newDoc` is the document content after the atomic write. -/
def insertOk (content : List Char) (pos : Option InsertPos) (text : List Char)
    (ap il : Nat) : InsertResult :=
  let newContent :=
    match pos with
    | some .start => text ++ chars "\n\n" ++ content
    | some .stop => content ++ chars "\n\n" ++ text
    | none => content ++ chars "\n\n" ++ text
    | some (.num _) => content.take ap ++ text ++ content.drop ap
  { success := true, newDoc := newContent, expected := none, actual := none,
    curLine := il + 1, curChar := ap, suggestedPositions := none }

/-- `insertContent` (content.js lines 10-252) as a pure function on the
document content.  On a failed `expectedLineBefore` validation the file is not
written, so `newDoc` is the unchanged input. -/
def insertContent (content : List Char) (pos : Option InsertPos) (text : List Char)
    (expectedLineBefore : Option (List Char)) : InsertResult :=
  let lines := splitLines content
  let ap := (insertionParams content pos).1
  let il := (insertionParams content pos).2
  match expectedLineBefore with
  | some e =>
    let lb := lineBeforeInsertion lines il
    if lb ≠ e then
      let occ := occurrencesOf lines e
      { success := false, newDoc := content, expected := some e, actual := some lb,
        curLine := il + 1, curChar := ap,
        suggestedPositions := if occ.isEmpty then none else some occ }
    else insertOk content pos text ap il
  | none => insertOk content pos text ap il

/-- The occurrence list carried by a result (`null` suggestions read as `[]`). -/
def suggestedList (r : InsertResult) : List Occurrence :=
  (r.suggestedPositions).getD []

/-!
## PositionalEditor: `deleteContent` (content.js lines 257-362)
-/

structure DelOccurrence where
  startPos : Nat
  endPos : Nat
  context : List Char
deriving DecidableEq, Repr

/-- One entry of the mismatch `occurrences` array (content.js lines 305-309):
verbatim match offsets plus 20 characters of context on each side. -/
def mkDelOcc (s e : List Char) (i : Nat) : DelOccurrence :=
  { startPos := i
    endPos := i + e.length
    context := ((s.drop (i - 20)).take (min s.length (i + e.length + 20) - (i - 20))) }

/-- The `while` loop of content.js lines 299-312: repeated `indexOf` from
`searchPos`, stepping to `index + 1` after each hit.  `fuel` bounds the
recursion; callers pass `s.length + 1`, which exceeds the number of possible
steps since `searchPos` strictly increases. -/
def collectOccs (s e : List Char) : Nat → Nat → List DelOccurrence
  | _, 0 => []
  | searchPos, f + 1 =>
    if searchPos < s.length then
      match indexOfFrom s e searchPos with
      | none => []
      | some i => mkDelOcc s e i :: collectOccs s e (i + 1) f
    else []

/-- Truncated preview of the content at the requested range
(content.js line 319). -/
def delPreview (sub : List Char) : List Char :=
  sub.take 200 ++ (if 200 < sub.length then chars "..." else [])

inductive DeleteResult where
  | invalid
  | mismatch (actualContent : List Char) (startPos endPos : Nat)
      (suggestedPositions : Option (List DelOccurrence))
  | ok (newDoc : List Char) (deletedLength : Nat)
deriving DecidableEq, Repr

/-- `deleteContent` (content.js lines 257-362) as a pure function on the
document content.  `invalid` models the thrown range error of line 283;
`mismatch` models the soft-failure result of lines 314-327 (no write);
`ok` carries the document content after the atomic write. -/
def deleteContent (content : List Char) (startPos endPos : Int)
    (expected : Option (List Char)) : DeleteResult :=
  if startPos < 0 ∨ endPos > (content.length : Int) ∨ startPos ≥ endPos then .invalid
  else
    let a := startPos.toNat
    let b := endPos.toNat
    let sub := (content.drop a).take (b - a)
    match expected with
    | some e =>
      if jsTrim e ≠ jsTrim sub then
        let occ := collectOccs content e 0 (content.length + 1)
        .mismatch (delPreview sub) a b (if occ.isEmpty then none else some occ)
      else .ok (content.take a ++ content.drop b) (b - a)
    | none => .ok (content.take a ++ content.drop b) (b - a)

/-- Document content after a `deleteContent` call: unchanged unless the
operation reached the atomic write. -/
def docAfterDelete (content : List Char) (startPos endPos : Int)
    (expected : Option (List Char)) : List Char :=
  match deleteContent content startPos endPos expected with
  | .ok nd _ => nd
  | _ => content

/-- All verbatim match positions of `e` in `s` (set of indices `i` with `e`
occurring at `i`), in increasing order — the specification-side rendering of
"every verbatim occurrence of expectedContent in the document". -/
def matchPositions (s e : List Char) : List Nat :=
  (List.range s.length).filter (fun i => e.isPrefixOf (s.drop i))

/-- Occurrence list of a mismatch result (`null` read as `[]`). -/
def delSuggestedList : DeleteResult → List DelOccurrence
  | .mismatch _ _ _ occ => occ.getD []
  | _ => []

/-!
## TabularStore: data model (database.js)

A row as materialized by `getDatabaseRows` (database.js lines 900-930):
base properties `id`/`filePath`/`fileName`/`title` (derived from the file),
the spread front matter, and `_contentPreview` (first 200 characters of the
body).  JavaScript object-spread overwrite semantics are captured by
`rowGet` / `rowValues` below.
-/

inductive JSValue where
  | str (s : List Char)
  | num (n : Int)
  | bool (b : Bool)
  | null
deriving DecidableEq, Repr

/-- Association-list lookup on string keys. -/
def assocLookup {α : Type} (m : List (List Char × α)) (k : List Char) : Option α :=
  (m.find? (fun kv => kv.1 == k)).map (·.2)

structure Row where
  id : List Char
  filePath : List Char
  fileName : List Char
  title : List Char
  fields : List (List Char × JSValue)
  contentPreview : List Char
deriving DecidableEq, Repr

/-- Keys of the row object that are set outside the front-matter spread. -/
def reservedRowKey (k : List Char) : Bool :=
  k == chars "id" || k == chars "filePath" || k == chars "fileName" ||
  k == chars "title" || k == chars "_contentPreview"

/-- Property access `row[k]` on the spread row object
(`{id, filePath, fileName, title, ...frontmatter, _contentPreview}`):
front-matter keys overwrite the four base properties; `_contentPreview` is
assigned after the spread and therefore always wins. -/
def rowGet (r : Row) (k : List Char) : Option JSValue :=
  if k = chars "_contentPreview" then some (.str r.contentPreview)
  else
    match assocLookup r.fields k with
    | some v => some v
    | none =>
      if k = chars "id" then some (.str r.id)
      else if k = chars "filePath" then some (.str r.filePath)
      else if k = chars "fileName" then some (.str r.fileName)
      else if k = chars "title" then some (.str r.title)
      else none

/-- `Object.values(row)` up to multiset equality (order is irrelevant to the
`.some` searches that consume it). -/
def rowValues (r : Row) : List JSValue :=
  [ (assocLookup r.fields (chars "id")).getD (.str r.id),
    (assocLookup r.fields (chars "filePath")).getD (.str r.filePath),
    (assocLookup r.fields (chars "fileName")).getD (.str r.fileName),
    (assocLookup r.fields (chars "title")).getD (.str r.title) ]
  ++ (r.fields.filter (fun kv => !reservedRowKey kv.1)).map (·.2)
  ++ [.str r.contentPreview]

inductive FilterOp where
  | equals
  | notEquals
  | contains
  | notContains
  | greaterThan
  | lessThan
  | isEmpty
  | isNotEmpty
  | unknown
deriving DecidableEq, Repr

structure Filter where
  column : List Char
  operator : FilterOp
  value : JSValue
deriving DecidableEq, Repr

inductive Dir where
  | asc
  | desc
deriving DecidableEq, Repr

structure SortSpec where
  column : List Char
  direction : Dir
deriving DecidableEq, Repr

structure View where
  id : List Char
  filters : List Filter
  sorts : List SortSpec
deriving DecidableEq, Repr

structure Column where
  id : List Char
  name : List Char
deriving DecidableEq, Repr

structure Config where
  name : List Char
  columns : List Column
  views : List View
deriving DecidableEq, Repr

structure Options where
  search : Option (List Char)
  filters : Option (List Filter)
  sort : Option SortSpec
  viewId : Option (List Char)
  limit : Option Nat
deriving DecidableEq, Repr

/-!
## TabularStore: `readDatabase` query pipeline (database.js lines 1001-1123)
-/

/-- `String(value || '')` as used by the filter comparisons: a falsy value
(`undefined`, `null`, `''`, `0`, `false`) renders as the empty string, any
other value through JavaScript string conversion. -/
def jsStringOrEmpty (v : Option JSValue) : List Char :=
  match v with
  | none => []
  | some .null => []
  | some (.str s) => s
  | some (.num n) => if n = 0 then [] else (toString n).data
  | some (.bool b) => if b then chars "true" else []

/-- `Number(value)` as used by `greaterThan`/`lessThan`; `none` models `NaN`
(every comparison against `NaN` is false).  String parsing covers optional-sign
decimal integers; the empty string converts to 0. -/
def jsToNumber (v : Option JSValue) : Option Int :=
  match v with
  | none => none
  | some .null => some 0
  | some (.bool b) => some (if b then 1 else 0)
  | some (.num n) => some n
  | some (.str s) =>
    if s = [] then some 0
    else if s.all Char.isDigit then some (Int.ofNat (s.foldl (fun a c => a * 10 + c.toNat - 48) 0))
    else if s.head? = some '-' ∧ s.tail ≠ [] ∧ s.tail.all Char.isDigit then
      some (-(Int.ofNat (s.tail.foldl (fun a c => a * 10 + c.toNat - 48) 0)))
    else none

/-- One explicit filter applied to one row (database.js lines 1022-1048). -/
def filterPred (f : Filter) (r : Row) : Bool :=
  let value := rowGet r f.column
  let fv : Option JSValue := some f.value
  match f.operator with
  | .equals =>
    match value with
    | some (.bool b) => f.value == .bool b
    | _ => toLowerList (jsStringOrEmpty value) == toLowerList (jsStringOrEmpty fv)
  | .notEquals =>
    match value with
    | some (.bool b) => f.value != .bool b
    | _ => toLowerList (jsStringOrEmpty value) != toLowerList (jsStringOrEmpty fv)
  | .contains => containsSub (toLowerList (jsStringOrEmpty value)) (toLowerList (jsStringOrEmpty fv))
  | .notContains => !containsSub (toLowerList (jsStringOrEmpty value)) (toLowerList (jsStringOrEmpty fv))
  | .greaterThan =>
    match jsToNumber value, jsToNumber fv with
    | some a, some b => a > b
    | _, _ => false
  | .lessThan =>
    match jsToNumber value, jsToNumber fv with
    | some a, some b => a < b
    | _, _ => false
  | .isEmpty =>
    match value with
    | none => true
    | some .null => true
    | some (.str []) => true
    | _ => false
  | .isNotEmpty =>
    match value with
    | none => false
    | some .null => false
    | some (.str []) => false
    | _ => true
  | .unknown => true

/-- One stored-view filter applied to one row (database.js lines 1075-1087):
only `equals` and `contains` are implemented on this path (no boolean special
case); every other operator passes the row. -/
def viewFilterPred (f : Filter) (r : Row) : Bool :=
  let value := rowGet r f.column
  let fv : Option JSValue := some f.value
  match f.operator with
  | .equals => toLowerList (jsStringOrEmpty value) == toLowerList (jsStringOrEmpty fv)
  | .contains => containsSub (toLowerList (jsStringOrEmpty value)) (toLowerList (jsStringOrEmpty fv))
  | _ => true

/-- `String(value)` (only reached through `?? ''`, so `null` is not hit on the
sort paths, but defined totally). -/
def jsToString (v : JSValue) : List Char :=
  match v with
  | .str s => s
  | .num n => (toString n).data
  | .bool b => if b then chars "true" else chars "false"
  | .null => chars "null"

/-- `a[column] ?? ''` — nullish coalescing to the empty string. -/
def orEmpty (v : Option JSValue) : JSValue :=
  match v with
  | none => .str []
  | some .null => .str []
  | some x => x

/-- Code-point lexicographic three-way comparison, modelling `localeCompare`
on the ASCII inputs in scope. -/
def lexCompare : List Char → List Char → Int
  | [], [] => 0
  | [], _ :: _ => -1
  | _ :: _, [] => 1
  | a :: as, b :: bs =>
    if a < b then -1 else if b < a then 1 else lexCompare as bs

/-- The explicit-sort comparator (database.js lines 1055-1065): numeric
compare when both values are numbers, otherwise string comparison; `desc`
negates. -/
def explicitCmp (s : SortSpec) (a b : Row) : Int :=
  let av := orEmpty (rowGet a s.column)
  let bv := orEmpty (rowGet b s.column)
  match av, bv with
  | .num x, .num y => if s.direction = .asc then x - y else y - x
  | _, _ =>
    let c := lexCompare (jsToString av) (jsToString bv)
    if s.direction = .asc then c else -c

/-- The stored-view sort comparator (database.js lines 1094-1099): always
string comparison, no numeric branch. -/
def viewCmp (s : SortSpec) (a b : Row) : Int :=
  let c := lexCompare (jsToString (orEmpty (rowGet a s.column)))
                      (jsToString (orEmpty (rowGet b s.column)))
  if s.direction = .asc then c else -c

/-- Stable insertion of `x` into a run already sorted by `cmp`: `x` lands
after every element it does not strictly precede. -/
def insertCmp {α : Type} (cmp : α → α → Int) (x : α) : List α → List α
  | [] => [x]
  | y :: ys => if cmp x y < 0 then x :: y :: ys else y :: insertCmp cmp x ys

/-- Stable comparator sort (`Array.prototype.sort`; stability per ES2019).
Elements are inserted from right to left so that equal elements keep their
original relative order. -/
def sortCmp {α : Type} (cmp : α → α → Int) (l : List α) : List α :=
  l.foldr (insertCmp cmp) []

/-- `title.toLowerCase().includes(query)` guarded by `?.` — false when the
effective title is nullish, and only a string title can match (a non-string
title would throw in JS; no claim input reaches that case). -/
def titleMatches (qq : List Char) (r : Row) : Bool :=
  match rowGet r (chars "title") with
  | some (.str t) => containsSub (toLowerList t) qq
  | _ => false

/-- `typeof v === 'string' && v.toLowerCase().includes(query)`. -/
def strValMatch (qq : List Char) (v : JSValue) : Bool :=
  match v with
  | .str s => containsSub (toLowerList s) qq
  | _ => false

/-- The search predicate of database.js lines 1011-1016 (`qq` is the already
lowercased query). -/
def searchPredL (qq : List Char) (r : Row) : Bool :=
  titleMatches qq r || (rowValues r).any (strValMatch qq)

/-- Stage 2: `options.search` (database.js lines 1009-1017).  The guard
`if (options.search)` makes an empty query a no-op. -/
def applySearch (o : Options) (rows : List Row) : List Row :=
  match o.search with
  | none => rows
  | some q => if q = [] then rows else rows.filter (searchPredL (toLowerList q))

/-- Stage 3: explicit `options.filters`, AND-combined by successive
`Array.prototype.filter` passes (database.js lines 1020-1050). -/
def applyExplicitFilters (o : Options) (rows : List Row) : List Row :=
  match o.filters with
  | none => rows
  | some fs => fs.foldl (fun acc f => acc.filter (filterPred f)) rows

/-- Stage 4: explicit `options.sort` (database.js lines 1053-1066). -/
def applyExplicitSort (o : Options) (rows : List Row) : List Row :=
  match o.sort with
  | none => rows
  | some s => sortCmp (explicitCmp s) rows

/-- Stage 5: stored view (database.js lines 1069-1102).  View filters run only
when no explicit `filters` option was supplied (all of them, in order); the
view sort runs only when no explicit `sort` was supplied and uses
`view.sorts[0]` alone.  An empty `viewId` string is falsy and skips the stage. -/
def applyView (cfg : Config) (o : Options) (rows : List Row) : List Row :=
  match o.viewId with
  | none => rows
  | some vid =>
    if vid = [] then rows
    else
      match cfg.views.find? (fun v => v.id == vid) with
      | none => rows
      | some v =>
        let r1 :=
          if o.filters = none ∧ v.filters ≠ [] then
            v.filters.foldl (fun acc f => acc.filter (viewFilterPred f)) rows
          else rows
        if o.sort = none ∧ v.sorts ≠ [] then
          match v.sorts with
          | s :: _ => sortCmp (viewCmp s) r1
          | [] => r1
        else r1

/-- Stage 6: `options.limit` (database.js lines 1105-1107); `limit: 0` is
falsy and therefore a no-op. -/
def applyLimit (o : Options) (rows : List Row) : List Row :=
  match o.limit with
  | none => rows
  | some n => if n = 0 then rows else rows.take n

/-- The row pipeline of `readDatabase` (database.js lines 1008-1107), from the
materialized row list to the returned `rows`. -/
def readDatabaseRows (cfg : Config) (rows : List Row) (o : Options) : List Row :=
  applyLimit o (applyView cfg o (applyExplicitSort o (applyExplicitFilters o (applySearch o rows))))

/-!
## TabularStore: filenames and the row-file map
-/

/-- Character class kept by `generateSafeFileName`'s
`replace(/[^a-z0-9\s-]/g, '')` (after lowercasing). -/
def slugKeep (c : Char) : Bool :=
  (('a' ≤ c && c ≤ 'z') || ('0' ≤ c && c ≤ '9') || isWs c || c == '-')

/-- One pass of a `replace(/X+/g, rep)`-style run collapse: every maximal run
of characters satisfying `p` becomes the single character `rep`. -/
def collapseRuns (p : Char → Bool) (rep : Char) : Bool → List Char → List Char
  | _, [] => []
  | inRun, c :: cs =>
    if p c then
      if inRun then collapseRuns p rep true cs
      else rep :: collapseRuns p rep true cs
    else c :: collapseRuns p rep false cs

/-- `generateSafeFileName` (database.js lines 794-802): lowercase, strip
characters outside `[a-z0-9\s-]`, turn whitespace runs into `-`, collapse `-`
runs, trim (a no-op by then, kept for fidelity), fall back to `untitled`,
append `.md`. -/
def generateSafeFileName (title : List Char) : List Char :=
  let a := toLowerList title
  let b := a.filter slugKeep
  let c := collapseRuns isWs '-' false b
  let d := collapseRuns (fun x => x == '-') '-' false c
  let sanitized := jsTrim d
  (if sanitized = [] then chars "untitled" else sanitized) ++ chars ".md"

/-- A row file in parsed form: front-matter map and body (see the header
comment for why database operations work on parsed payloads). -/
structure FileData where
  fm : List (List Char × JSValue)
  body : List Char
deriving DecidableEq, Repr

/-- Database directory contents: file name (with extension) to payload, in
directory-listing order. -/
abbrev FileMap : Type := List (List Char × FileData)

/-- `fs.writeFile`: overwrite in place when the name exists, else append. -/
def fsWrite : FileMap → List Char → FileData → FileMap
  | [], k, v => [(k, v)]
  | (k', v') :: t, k, v =>
    if k' = k then (k, v) :: t else (k', v') :: fsWrite t k v

/-- `fs.unlink`. -/
def fsErase (m : FileMap) (k : List Char) : FileMap :=
  m.filter (fun kv => kv.1 != k)

/-- `getDatabaseRows` (database.js lines 900-930): one row per `.md` file,
with `id = filePath = dir/name`, `title = name.replace('.md', '')` (first
occurrence), the parsed front matter spread in, and a 200-character body
preview. -/
def getRows (dir : List Char) (files : FileMap) : List Row :=
  (files.filter (fun nf => (chars ".md").isSuffixOf nf.1)).map (fun nf =>
    { id := dir ++ chars "/" ++ nf.1
      filePath := dir ++ chars "/" ++ nf.1
      fileName := nf.1
      title := replaceFirst (chars ".md") [] nf.1
      fields := nf.2.fm
      contentPreview := nf.2.body.take 200 })

/-- The `updates` / `rowData` object of `updateRows` / `addRows`.  `titleU`
models the `title` property when present (as a string — the only type the
server's schema admits), `contentU` the `_content` property, `fields` every
other key. -/
structure Updates where
  titleU : Option (List Char)
  contentU : Option (List Char)
  fields : List (List Char × JSValue)
deriving DecidableEq, Repr

/-- JavaScript object spread `{...base, ...upd}`: common keys keep their
position with the updated value, new keys are appended. -/
def mergeFm (base upd : List (List Char × JSValue)) : List (List Char × JSValue) :=
  base.map (fun kv => (kv.1, (assocLookup upd kv.1).getD kv.2))
  ++ upd.filter (fun kv => assocLookup base kv.1 == none)

/-- `{...frontmatter, ...updates}` followed by `delete .title` and
`delete ._content` (database.js lines 1286-1288 / 1306-1308); the deletes also
strip a pre-existing `title`/`_content` front-matter key. -/
def cleanFm (base : List (List Char × JSValue)) (u : Updates) : List (List Char × JSValue) :=
  (mergeFm base u.fields).filter
    (fun kv => kv.1 != chars "title" && kv.1 != chars "_content")

/-- `updates._content || bodyContent`: an empty `_content` string is falsy and
keeps the old body. -/
def newBody (u : Updates) (old : List Char) : List Char :=
  match u.contentU with
  | some c => if c = [] then old else c
  | none => old

/-- One iteration of the `updateRows` row loop (database.js lines 1275-1322),
threading the file map.  `none` models the thrown error when the row's file
vanished between the directory scan and the read.  The rename branch fires
only when `updates.title` is truthy (non-empty) *and* differs from the current
title; it writes the new file first and unlinks the old path second. -/
def updateRowsStep (u : Updates) (fs : FileMap) (row : Row) : Option FileMap :=
  match assocLookup fs row.fileName with
  | none => none
  | some fd =>
    let clean := cleanFm fd.fm u
    let body := newBody u fd.body
    match u.titleU with
    | some t =>
      if t ≠ [] ∧ t ≠ row.title then
        let newName := generateSafeFileName t
        some (fsErase (fsWrite fs newName ⟨clean, body⟩) row.fileName)
      else some (fsWrite fs row.fileName ⟨clean, body⟩)
    | none => some (fsWrite fs row.fileName ⟨clean, body⟩)

/-- Row selection for `updateRows` with explicit `ids` (database.js
line 1263): match on row id or file path. -/
def selectByIds (ids : List (List Char)) (rows : List Row) : List Row :=
  rows.filter (fun r => decide (r.id ∈ ids ∨ r.filePath ∈ ids))

/-- `updateRows` in `ids` selection mode (database.js lines 1250-1334),
returning the directory contents after the loop. -/
def updateRows (dir : List Char) (files : FileMap) (u : Updates)
    (ids : List (List Char)) : Option FileMap :=
  (selectByIds ids (getRows dir files)).foldlM (updateRowsStep u) files

/-- Digits of a counter value as characters. -/
def natChars (n : Nat) : List Char := (toString n).data

/-- The collision loop of `addRows` (database.js lines 1196-1209): try
`base-1.md`, `base-2.md`, … until a free name is found.  `fuel` bounds the
recursion; callers pass more candidates than there are files, so the
exhaustion branch is unreachable on finite maps. -/
def uniqueAux (names : List (List Char)) (base : List Char) : Nat → Nat → List Char
  | c, 0 => base ++ chars "-" ++ natChars c ++ chars ".md"
  | c, f + 1 =>
    let cand := base ++ chars "-" ++ natChars c ++ chars ".md"
    if cand ∈ names then uniqueAux names base (c + 1) f else cand

/-- Unique filename selection of `addRows`: the slug itself when free,
otherwise the first free `base-N.md`. -/
def uniqueFileName (names : List (List Char)) (fileName : List Char) : List Char :=
  if fileName ∈ names then
    uniqueAux names (replaceFirst (chars ".md") [] fileName) 1 (names.length + 1)
  else fileName

/-- One row of `addRows` (database.js lines 1191-1233): title defaults to
`Untitled` when absent or empty (falsy), filename is de-duplicated, front
matter excludes `title`/`_content`, body defaults to a `# title` heading. -/
def addRow (files : FileMap) (rowData : Updates) : FileMap × List Char :=
  let title :=
    match rowData.titleU with
    | some t => if t = [] then chars "Untitled" else t
    | none => chars "Untitled"
  let fileName := generateSafeFileName title
  let unique := uniqueFileName (files.map Prod.fst) fileName
  let fm := rowData.fields.filter
    (fun kv => kv.1 != chars "title" && kv.1 != chars "_content")
  let body :=
    match rowData.contentU with
    | some c => if c = [] then chars "# " ++ title ++ chars "\n\n" else c
    | none => chars "# " ++ title ++ chars "\n\n"
  (fsWrite files unique ⟨fm, body⟩, unique)

/-!
## TabularStore: `deleteColumn` (database.js lines 1486-1536)
-/

/-- `findIndex` + `splice(i, 1)` on the column list: remove the first column
with the given id, returning it alongside the remainder. -/
def removeFirstCol : List Column → List Char → Option (Column × List Column)
  | [], _ => none
  | c :: cs, cid =>
    if c.id = cid then some (c, cs)
    else (removeFirstCol cs cid).map (fun p => (p.1, c :: p.2))

/-- `deleteColumn` as a pure function on config and directory contents.
`none` models the thrown `McpError` for the protected `title` column or an
unknown column id.  On success: the column leaves the schema, every view
drops the filters and sorts referencing it, and every row's front matter
drops the key (the code rewrites only files that had the key; dropping an
absent key is the identity, so a uniform strip is extensionally the same). -/
def deleteColumnOp (cfg : Config) (files : FileMap) (columnId : List Char) :
    Option (Config × FileMap × Column) :=
  if columnId = chars "title" then none
  else
    match removeFirstCol cfg.columns columnId with
    | none => none
    | some (col, cols') =>
      let views' := cfg.views.map (fun v =>
        { id := v.id
          filters := v.filters.filter (fun f => f.column != columnId)
          sorts := v.sorts.filter (fun s => s.column != columnId) })
      let files' : FileMap := files.map (fun nf =>
        (nf.1, ⟨nf.2.fm.filter (fun kv => kv.1 != columnId), nf.2.body⟩))
      some (⟨cfg.name, cols', views'⟩, files', col)

/-!
## FrontMatterCodec (spec §4.1)

Modelled from the spec: the concrete serializer behind
`parseMarkdownWithFrontmatter` / `stringifyMarkdownWithFrontmatter`
(database.js lines 807-824) is the external `gray-matter` library, which is
not part of this repository's sources.  Following §4.1: `serialize` of an
empty attribute map returns the body unchanged, otherwise a structured header
(`---`-delimited `key: value` lines) followed by the body; `parse` inverts
the header and fails soft to `({}, originalText)` on malformed input.
Attribute values are strings (the spec states no value-typing rules). -/

/-- Split a header line at its first `:`, dropping one space after it. -/
def parseKV (l : List Char) : Option (List Char × List Char) :=
  match firstMatch [':'] l with
  | none => none
  | some i =>
    let key := l.take i
    let after := l.drop (i + 1)
    some (key, if after.head? = some ' ' then after.tail else after)

/-- Consume rendered `key: value` lines up to the closing `---` line. -/
def parseHeaderLines : List (List Char) →
    Option (List (List Char × List Char) × List (List Char))
  | [] => none
  | l :: ls =>
    if l = chars "---" then some ([], ls)
    else
      match parseKV l, parseHeaderLines ls with
      | some kv, some (attrs, rest) => some (kv :: attrs, rest)
      | _, _ => none

/-- Modelled from the spec (§4.1): `parse(text)` — a well-formed
`---`-delimited header yields its attribute map and the remaining body;
anything else (no leading delimiter, no closing delimiter, a non-`key: value`
header line) yields `({}, originalText)`. -/
def parseFM (text : List Char) : List (List Char × List Char) × List Char :=
  if (chars "---\n").isPrefixOf text then
    match parseHeaderLines (splitLines (text.drop 4)) with
    | some (attrs, restLines) => (attrs, joinLines restLines)
    | none => ([], text)
  else ([], text)

/-- Modelled from the spec (§4.1): `serialize(attrs, body)` — the body alone
for an empty map, otherwise the rendered header followed by the body. -/
def serializeFM (attrs : List (List Char × List Char)) (body : List Char) : List Char :=
  if attrs = [] then body
  else
    chars "---\n"
    ++ (attrs.map (fun kv => kv.1 ++ chars ": " ++ kv.2 ++ [('\n' : Char)])).flatten
    ++ chars "---\n" ++ body

/-- The lines a serialized header renders for an attribute map. -/
def renderedLines (attrs : List (List Char × List Char)) : List (List Char) :=
  attrs.map (fun kv => kv.1 ++ chars ": " ++ kv.2)

/-!
## Specification-side search predicate

`specSearchMatch` renders the spec sentence "case-insensitive substring match
against `title` OR any string-valued front-matter field" — for comparison
against the code's `searchPredL`, which ranges over every string value of the
row object. -/

def specSearchMatch (q : List Char) (r : Row) : Bool :=
  ciContains r.title q ||
  r.fields.any (fun kv =>
    match kv.2 with
    | .str s => ciContains s q
    | _ => false)

/-- A row whose front matter uses none of the reserved row-object keys. -/
def noReservedKeys (r : Row) : Prop :=
  ∀ kv ∈ r.fields, reservedRowKey kv.1 = false

/-- The corrected search predicate: the query matches the title or any string
value of the row object — the row id, file path, file name, a string-valued
front-matter field, or the 200-character body preview. -/
def amendedSearchMatch (q : List Char) (r : Row) : Prop :=
  ciContains r.title q = true ∨ ciContains r.id q = true ∨
  ciContains r.filePath q = true ∨ ciContains r.fileName q = true ∨
  (∃ kv ∈ r.fields, ∃ s, kv.2 = JSValue.str s ∧ ciContains s q = true) ∨
  ciContains r.contentPreview q = true

/-!
## Concrete sample data for witnesses and counterexamples
-/

/-- Sample row with two front-matter fields, used by the view-filter claims. -/
def rowA : Row :=
  { id := chars "/d/a.md", filePath := chars "/d/a.md", fileName := chars "a.md",
    title := chars "a",
    fields := [(chars "s", .str (chars "1")), (chars "t", .str (chars "3"))],
    contentPreview := [] }

/-- A view declaring two filters (the second rejects `rowA`). -/
def viewTwoFilters : View :=
  { id := chars "v",
    filters := [⟨chars "s", .equals, .str (chars "1")⟩,
                ⟨chars "t", .equals, .str (chars "2")⟩],
    sorts := [] }

def cfgTwoFilters : Config := ⟨chars "db", [], [viewTwoFilters]⟩

/-- The same database with the view truncated to its first filter. -/
def cfgFirstFilter : Config :=
  ⟨chars "db", [], [{ viewTwoFilters with filters := viewTwoFilters.filters.take 1 }]⟩

/-- Options selecting the stored view and nothing else. -/
def optsViewOnly : Options := ⟨none, none, none, some (chars "v"), none⟩

/-- Row whose body preview contains `needle` while its title and (empty)
front matter do not. -/
def rowC5 : Row :=
  { id := chars "/d/a.md", filePath := chars "/d/a.md", fileName := chars "a.md",
    title := chars "a", fields := [], contentPreview := chars "needle stuff" }

def cfgTrivial : Config := ⟨chars "db", [], []⟩

/-- Two-row sample for the sort-precedence witness. -/
def rowS1 : Row :=
  { id := chars "/d/b.md", filePath := chars "/d/b.md", fileName := chars "b.md",
    title := chars "b", fields := [(chars "s", .str (chars "2"))],
    contentPreview := [] }

def rowS2 : Row :=
  { id := chars "/d/c.md", filePath := chars "/d/c.md", fileName := chars "c.md",
    title := chars "c", fields := [(chars "s", .str (chars "1"))],
    contentPreview := [] }

/-- Database whose view `v` declares both a filter and a sort. -/
def cfgC3 : Config :=
  ⟨chars "db", [],
   [⟨chars "v", [⟨chars "s", .equals, .str (chars "1")⟩], [⟨chars "s", .desc⟩]⟩]⟩

/-- Options carrying an explicit sort and an explicit (empty) filter list
together with the view id. -/
def optsC3 : Options :=
  ⟨none, some [], some ⟨chars "s", .asc⟩, some (chars "v"), none⟩

/-- Sample database for the column-deletion claim: a `status` column, a view
filtering and sorting on it, and a row carrying the key. -/
def cfgC6 : Config :=
  ⟨chars "db",
   [⟨chars "title", chars "Title"⟩, ⟨chars "status", chars "Status"⟩],
   [⟨chars "v", [⟨chars "status", .equals, .str (chars "Done")⟩],
      [⟨chars "status", .asc⟩]⟩]⟩

def filesC6 : FileMap :=
  [(chars "a.md", ⟨[(chars "status", .str (chars "Done"))], chars "body"⟩)]

/-- Expected outputs of `deleteColumnOp cfgC6 filesC6 "status"`. -/
def cfgC6After : Config :=
  ⟨chars "db", [⟨chars "title", chars "Title"⟩], [⟨chars "v", [], []⟩]⟩

def filesC6After : FileMap := [(chars "a.md", ⟨[], chars "body"⟩)]

def colC6 : Column := ⟨chars "status", chars "Status"⟩

/-- One-row directory for the title-rename claims. -/
def fdOld : FileData := ⟨[(chars "status", .str (chars "x"))], chars "b"⟩

def filesC7 : FileMap := [(chars "old.md", fdOld)]

/-- Updates whose `title` is the empty string: it differs from `old` but is
falsy, so the code does not rename. -/
def updEmptyTitle : Updates := ⟨some [], none, []⟩

/-- Directory contents after `updateRows` with the empty-string title. -/
def filesC7After : FileMap := [(chars "old.md", ⟨[(chars "status", .str (chars "x"))], chars "b"⟩)]

/-- Rename updates used by the witnesses. -/
def updNewTitle : Updates := ⟨some (chars "New"), none, []⟩

/-- Directory holding both the renamed row's file and a file already named
`new.md` (a different row). -/
def fdOther : FileData := ⟨[(chars "status", .str (chars "y"))], chars "other"⟩

def filesC10 : FileMap := [(chars "old.md", fdOld), (chars "new.md", fdOther)]

/-- Row data for the `addRows` dedup witness. -/
def rowDataNew : Updates := ⟨some (chars "New"), none, []⟩

/-!
## Theorems
-/

/-- `find?` commutes with an id-preserving rewrite of the view list. -/
theorem find_map_preserving (f : View → View) (h : ∀ v, (f v).id = v.id)
    (views : List View) (vid : List Char) :
    (views.map f).find? (fun v => v.id == vid) =
      (views.find? (fun v => v.id == vid)).map f := by
  induction views with
  | nil => rfl
  | cons v vs ih =>
    simp only [List.map_cons, List.find?_cons, h v]
    by_cases hv : (v.id == vid) = true
    · simp [hv]
    · simp only [Bool.not_eq_true] at hv
      simp [hv, ih]

/-- A first-element-only truncation of a list is empty iff the list is. -/
theorem take_one_ne_nil {α : Type} (l : List α) : l.take 1 ≠ [] ↔ l ≠ [] := by
  cases l <;> simp

/--
C9 (counterexample): the claim states that inserting at integer position
`len(doc)+1000` produces exactly the same document as inserting at `"end"`.
On document `"A"` with text `"B"`, position `1001 = len + 1000` yields `"AB"`
(numeric insertion is a raw splice, content.js line 134) while `"end"` yields
`"A\n\nB"` (two newlines are added, content.js line 132), so the claim is
false.
-/
theorem C9_counterexample :
    (insertContent (chars "A") (some (.num 1001)) (chars "B") none).newDoc ≠
      (insertContent (chars "A") (some .stop) (chars "B") none).newDoc := by
  decide

/--
C9 (amended): integer positions are clamped into `[0, len(documentText)]`, so
inserting at any position `p ≥ len(doc)` — in particular `len(doc)+1000` —
behaves identically to inserting at the integer position `len(doc)`: a raw
splice appending the text at the end of the document.  This differs from
position `"end"`, which additionally inserts two newline characters before
the text.
-/
theorem C9_clamp (doc text : List Char) (e : Option (List Char)) (p : Nat)
    (h : doc.length ≤ p) :
    insertContent doc (some (.num p)) text e =
      insertContent doc (some (.num doc.length)) text e := by
  cases e <;>
    simp [insertContent, insertionParams, insertOk, Nat.min_eq_right h, Nat.min_self]

/-- Witness for `C9_clamp` at document `"AB"`, text `"C"`, position `5`. -/
theorem C9_witness :
    insertContent (chars "AB") (some (.num 5)) (chars "C") none =
      insertContent (chars "AB") (some (.num (chars "AB").length)) (chars "C") none :=
  C9_clamp (chars "AB") (chars "C") none 5 (by decide)

/--
C4 (counterexample): the claim states that only the first element of an
applied view's filters array affects the returned rows.  With view `v`
declaring two filters (`s equals 1`, `t equals 2`) and a row satisfying the
first but not the second, `readDatabase` with `viewId = "v"` drops the row,
while the same database with the view truncated to its first filter keeps it
— so the second filter entry does affect the result.
-/
theorem C4_counterexample :
    readDatabaseRows cfgTwoFilters [rowA] optsViewOnly = [] ∧
      readDatabaseRows cfgFirstFilter [rowA] optsViewOnly = [rowA] := by
  constructor <;> decide

/--
C4 (amended): when a stored view is applied, *all* entries of the view's
filters array are applied (AND-combined, database.js lines 1073-1089), not
just the first; only the sorts array is truncated to its first element
(database.js line 1093).  Formally: truncating every view's sorts array to
its first element never changes the result of `readDatabase`.
-/
theorem C4_view_first_sort_only (n : List Char) (cols : List Column)
    (views : List View) (rows : List Row) (o : Options) :
    readDatabaseRows ⟨n, cols, views⟩ rows o =
      readDatabaseRows ⟨n, cols, views.map (fun v => ⟨v.id, v.filters, v.sorts.take 1⟩)⟩ rows o := by
  unfold readDatabaseRows
  congr 1
  unfold applyView
  cases hvid : o.viewId with
  | none => rfl
  | some vid =>
    by_cases hnil : vid = []
    · simp [hnil]
    · simp only [hnil, if_neg, ite_false]
      rw [find_map_preserving (fun v => ⟨v.id, v.filters, v.sorts.take 1⟩) (fun _ => rfl)]
      cases hfind : List.find? (fun v => v.id == vid) views with
      | none => rfl
      | some v =>
        obtain ⟨vId, vFilters, vSorts⟩ := v
        simp only [Option.map_some]
        cases vSorts with
        | nil => simp
        | cons s rest => simp

/-- `removeFirstCol` fails exactly when no column has the requested id. -/
theorem removeFirstCol_eq_none (cols : List Column) (cid : List Char)
    (h : ∀ c ∈ cols, c.id ≠ cid) : removeFirstCol cols cid = none := by
  induction cols with
  | nil => rfl
  | cons c cs ih =>
    simp only [removeFirstCol, if_neg (h c (by simp))]
    rw [ih (fun c' hc' => h c' (by simp [hc']))]
    rfl

/-- The removed column carries the requested id, and under unique column ids
no remaining column carries it. -/
theorem removeFirstCol_ids (cols : List Column) (cid : List Char)
    (col : Column) (rest : List Column)
    (h : removeFirstCol cols cid = some (col, rest)) :
    col.id = cid ∧ ((cols.map Column.id).Nodup → ∀ c ∈ rest, c.id ≠ cid) := by
  induction cols generalizing col rest with
  | nil => simp [removeFirstCol] at h
  | cons c cs ih =>
    by_cases hc : c.id = cid
    · simp only [removeFirstCol, if_pos hc, Option.some.injEq, Prod.mk.injEq] at h
      obtain ⟨rfl, rfl⟩ := h
      refine ⟨hc, ?_⟩
      intro hnd c' hc' hceq
      rw [List.map_cons, List.nodup_cons] at hnd
      exact hnd.1 (hc ▸ hceq ▸ List.mem_map_of_mem Column.id hc')
    · simp only [removeFirstCol, if_neg hc, Option.map_eq_some'] at h
      obtain ⟨⟨col0, rest0⟩, hrec, heq⟩ := h
      simp only [Prod.mk.injEq] at heq
      obtain ⟨rfl, rfl⟩ := heq
      obtain ⟨hid, hrest⟩ := ih col0 rest0 hrec
      refine ⟨hid, ?_⟩
      intro hnd c' hc'
      rw [List.map_cons, List.nodup_cons] at hnd
      rcases List.mem_cons.mp hc' with rfl | hmem
      · exact hc
      · exact hrest hnd.2 c' hmem

/--
C6: `deleteColumn` fails (throws) when the column id is the protected
`"title"` — regardless of database state — or when no column carries the id;
otherwise it removes the column from the schema, strips every filter and sort
referencing it from every view, and removes the front-matter key from every
row, so that afterwards no view filter/sort and no row's front matter
references the deleted column.
-/
theorem C6_delete_column (cfg : Config) (files : FileMap) (cid : List Char) :
    (cid = chars "title" → deleteColumnOp cfg files cid = none)
    ∧ ((∀ c ∈ cfg.columns, c.id ≠ cid) → deleteColumnOp cfg files cid = none)
    ∧ (∀ cfg' files' col, deleteColumnOp cfg files cid = some (cfg', files', col) →
        col.id = cid
        ∧ (∀ v ∈ cfg'.views, (∀ f ∈ v.filters, f.column ≠ cid) ∧ (∀ s ∈ v.sorts, s.column ≠ cid))
        ∧ (∀ nf ∈ files', ∀ kv ∈ nf.2.fm, kv.1 ≠ cid)
        ∧ ((cfg.columns.map Column.id).Nodup → ∀ c ∈ cfg'.columns, c.id ≠ cid)) := by
  refine ⟨fun h => by simp [deleteColumnOp, h], ?_, ?_⟩
  · intro h
    by_cases ht : cid = chars "title"
    · simp [deleteColumnOp, ht]
    · simp [deleteColumnOp, ht, removeFirstCol_eq_none cfg.columns cid h]
  · intro cfg' files' col h
    unfold deleteColumnOp at h
    by_cases ht : cid = chars "title"
    · simp [ht] at h
    · simp only [if_neg ht] at h
      cases hrc : removeFirstCol cfg.columns cid with
      | none => rw [hrc] at h; exact absurd h (by simp)
      | some p =>
        obtain ⟨c0, cols'⟩ := p
        rw [hrc] at h
        simp only [Option.some.injEq, Prod.mk.injEq] at h
        obtain ⟨hcfg, hfiles, hcol⟩ := h
        obtain ⟨hid, hnd⟩ := removeFirstCol_ids cfg.columns cid c0 cols' hrc
        subst hcfg hfiles hcol
        refine ⟨hid, ?_, ?_, ?_⟩
        · intro v hv
          simp only [List.mem_map] at hv
          obtain ⟨v0, _, rfl⟩ := hv
          constructor
          · intro f hf
            simp only [List.mem_filter, bne_iff_ne] at hf
            exact hf.2
          · intro s hs
            simp only [List.mem_filter, bne_iff_ne] at hs
            exact hs.2
        · intro nf hnf kv hkv
          simp only [List.mem_map] at hnf
          obtain ⟨nf0, _, rfl⟩ := hnf
          simp only [List.mem_filter, bne_iff_ne] at hkv
          exact hkv.2
        · exact hnd

/-- When both explicit `filters` and `sort` options are supplied, the
stored-view stage passes rows through untouched. -/
theorem applyView_explicit_noop (cfg : Config) (o : Options) (x : List Row)
    (hs : o.sort ≠ none) (hf : o.filters ≠ none) : applyView cfg o x = x := by
  unfold applyView
  cases hvid : o.viewId with
  | none => rfl
  | some vid =>
    by_cases hnil : vid = []
    · simp [hnil]
    · simp only [hnil, ite_false]
      cases hfind : List.find? (fun v => v.id == vid) cfg.views with
      | none => rfl
      | some v => simp [hs, hf]

/--
C3: explicit `filters`/`sort` arguments always take precedence over a view's
stored filters/sorts.  With an explicit sort the result is independent of
every view's stored sorts (so the ordering is the explicit sort's); with
explicit filters it is independent of every view's stored filters; with both,
the stored view contributes nothing at all.
-/
theorem C3_explicit_precedence (n : List Char) (cols : List Column)
    (views : List View) (rows : List Row) (o : Options)
    (g : View → List SortSpec) (f : View → List Filter) :
    (o.sort ≠ none →
      readDatabaseRows ⟨n, cols, views⟩ rows o =
        readDatabaseRows ⟨n, cols, views.map (fun v => ⟨v.id, v.filters, g v⟩)⟩ rows o)
    ∧ (o.filters ≠ none →
      readDatabaseRows ⟨n, cols, views⟩ rows o =
        readDatabaseRows ⟨n, cols, views.map (fun v => ⟨v.id, f v, v.sorts⟩)⟩ rows o)
    ∧ (o.sort ≠ none → o.filters ≠ none →
      readDatabaseRows ⟨n, cols, views⟩ rows o =
        readDatabaseRows ⟨n, cols, views⟩ rows { o with viewId := none }) := by
  refine ⟨?_, ?_, ?_⟩
  · intro hs
    unfold readDatabaseRows
    congr 1
    unfold applyView
    cases hvid : o.viewId with
    | none => rfl
    | some vid =>
      by_cases hnil : vid = []
      · simp [hnil]
      · simp only [hnil, ite_false]
        rw [find_map_preserving (fun v => ⟨v.id, v.filters, g v⟩) (fun _ => rfl)]
        cases hfind : List.find? (fun v => v.id == vid) views with
        | none => rfl
        | some v =>
          obtain ⟨vId, vFilters, vSorts⟩ := v
          simp [hs]
  · intro hf
    unfold readDatabaseRows
    congr 1
    unfold applyView
    cases hvid : o.viewId with
    | none => rfl
    | some vid =>
      by_cases hnil : vid = []
      · simp [hnil]
      · simp only [hnil, ite_false]
        rw [find_map_preserving (fun v => ⟨v.id, f v, v.sorts⟩) (fun _ => rfl)]
        cases hfind : List.find? (fun v => v.id == vid) views with
        | none => rfl
        | some v =>
          obtain ⟨vId, vFilters, vSorts⟩ := v
          simp [hf]
  · intro hs hf
    unfold readDatabaseRows
    rw [applyView_explicit_noop ⟨n, cols, views⟩ o _ hs hf,
        applyView_explicit_noop ⟨n, cols, views⟩ { o with viewId := none } _
          (by simpa using hs) (by simpa using hf)]
    rfl

/-- Witness for `C3_explicit_precedence`: on the sample database whose view
`v` filters and sorts on `s`, explicit (empty) filters plus an explicit
ascending sort make the result identical to ignoring the view entirely. -/
theorem C3_witness :
    readDatabaseRows cfgC3 [rowS1, rowS2] optsC3 =
      readDatabaseRows cfgC3 [rowS1, rowS2] { optsC3 with viewId := none } :=
  (C3_explicit_precedence (chars "db") [] cfgC3.views [rowS1, rowS2] optsC3
    (fun _ => []) (fun _ => [])).2.2 (by decide) (by decide)

/--
C5 (counterexample): the claim states a row is retained iff the query is a
case-insensitive substring of the title or a string-valued front-matter field.
Row `rowC5` has title `"a"` and empty front matter, yet searching `"needle"`
retains it because its 200-character body preview (`_contentPreview`, a string
value of the row object) contains the query — refuting the "only if"
direction.
-/
theorem C5_counterexample :
    readDatabaseRows cfgTrivial [rowC5] ⟨some (chars "needle"), none, none, none, none⟩ = [rowC5]
    ∧ specSearchMatch (chars "needle") rowC5 = false := by
  constructor <;> decide

/-- Front-matter lookups of reserved keys fail on rows without reserved keys. -/
theorem assocLookup_reserved_none (r : Row) (h : noReservedKeys r) (k : List Char)
    (hk : reservedRowKey k = true) : assocLookup r.fields k = none := by
  unfold assocLookup
  rw [List.find?_eq_none.mpr]
  · rfl
  · intro kv hkv
    simp only [beq_iff_eq]
    intro heq
    have hres := h kv hkv
    rw [heq, hk] at hres
    exact absurd hres (by simp)

/-- On a row without reserved front-matter keys, the effective `title` is the
filename-derived one. -/
theorem rowGet_title (r : Row) (h : noReservedKeys r) :
    rowGet r (chars "title") = some (.str r.title) := by
  unfold rowGet
  rw [if_neg (by decide), assocLookup_reserved_none r h _ (by decide)]
  simp [show ¬(chars "title" = chars "id") from by decide,
        show ¬(chars "title" = chars "filePath") from by decide,
        show ¬(chars "title" = chars "fileName") from by decide]

/-- On a row without reserved front-matter keys, `Object.values` is the four
derived strings, the front-matter values, and the preview. -/
theorem rowValues_of_noReserved (r : Row) (h : noReservedKeys r) :
    rowValues r = [.str r.id, .str r.filePath, .str r.fileName, .str r.title]
      ++ r.fields.map (·.2) ++ [.str r.contentPreview] := by
  unfold rowValues
  rw [assocLookup_reserved_none r h _ (by decide),
      assocLookup_reserved_none r h _ (by decide),
      assocLookup_reserved_none r h _ (by decide),
      assocLookup_reserved_none r h _ (by decide)]
  rw [List.filter_eq_self.mpr]
  · rfl
  · intro kv hkv
    simp [h _ hkv]

/-- `strValMatch` succeeds exactly on matching string values. -/
theorem strValMatch_iff (qq : List Char) (v : JSValue) :
    strValMatch qq v = true ↔
      ∃ s, v = JSValue.str s ∧ containsSub (toLowerList s) qq = true := by
  cases v <;> simp [strValMatch]

/-- The code's search predicate coincides with the corrected claim's predicate
on rows without reserved front-matter keys. -/
theorem searchPred_characterization (q : List Char) (r : Row) (h : noReservedKeys r) :
    (searchPredL (toLowerList q) r = true) ↔ amendedSearchMatch q r := by
  unfold searchPredL amendedSearchMatch ciContains titleMatches
  rw [rowGet_title r h, rowValues_of_noReserved r h]
  simp only [List.any_append, List.any_cons, List.any_nil, Bool.or_eq_true,
    Bool.or_false, List.any_eq_true, List.mem_map, strValMatch_iff,
    JSValue.str.injEq, exists_eq_left', exists_exists_and_eq_and]
  aesop

/--
C5 (amended): with a non-empty `search` query, a row is retained iff the
query is a case-insensitive substring of any string value of the row object —
the title, the row id, the file path, the file name, a string-valued
front-matter field, or the 200-character body content preview (stated for
rows whose front matter avoids the reserved row-object keys, which is every
row this system writes).
-/
theorem C5_search_membership (cfg : Config) (rows : List Row) (q : List Char) (r : Row)
    (hq : q ≠ []) (hres : ∀ r0 ∈ rows, noReservedKeys r0) :
    r ∈ readDatabaseRows cfg rows ⟨some q, none, none, none, none⟩ ↔
      r ∈ rows ∧ amendedSearchMatch q r := by
  have hpipe : readDatabaseRows cfg rows ⟨some q, none, none, none, none⟩ =
      rows.filter (searchPredL (toLowerList q)) := by
    simp [readDatabaseRows, applySearch, applyExplicitFilters, applyExplicitSort,
      applyView, applyLimit, hq]
  rw [hpipe, List.mem_filter]
  constructor
  · rintro ⟨hmem, hpred⟩
    exact ⟨hmem, (searchPred_characterization q r (hres r hmem)).mp hpred⟩
  · rintro ⟨hmem, hmatch⟩
    exact ⟨hmem, (searchPred_characterization q r (hres r hmem)).mpr hmatch⟩

/-- Witness for `C5_search_membership` at the sample row and query `needle`. -/
theorem C5_witness :
    rowC5 ∈ readDatabaseRows cfgTrivial [rowC5] ⟨some (chars "needle"), none, none, none, none⟩ ↔
      rowC5 ∈ [rowC5] ∧ amendedSearchMatch (chars "needle") rowC5 :=
  C5_search_membership cfgTrivial [rowC5] (chars "needle") rowC5 (by decide)
    (by intro r0 h0
        simp only [List.mem_singleton] at h0
        subst h0
        intro kv hkv
        simp [rowC5] at hkv)

/-- `splitLines` never returns the empty list. -/
theorem splitLines_ne_nil (s : List Char) : splitLines s ≠ [] := by
  cases s with
  | nil => simp [splitLines]
  | cons c cs =>
    by_cases hc : c = '\n'
    · simp [splitLines, hc]
    · simp only [splitLines, if_neg hc]
      cases splitLines cs <;> simp

/-- Unfolding `joinLines` on a singleton. -/
theorem joinLines_single (l : List Char) : joinLines [l] = l := rfl

/-- Unfolding `joinLines` on two or more lines. -/
theorem joinLines_cons_cons (l l2 : List Char) (ls : List (List Char)) :
    joinLines (l :: l2 :: ls) = l ++ '\n' :: joinLines (l2 :: ls) := rfl

/-- Joining the split lines recovers the original text. -/
theorem joinLines_splitLines (s : List Char) : joinLines (splitLines s) = s := by
  induction s with
  | nil => rfl
  | cons c cs ih =>
    by_cases hc : c = '\n'
    · subst hc
      have hsplit : splitLines ('\n' :: cs) = [] :: splitLines cs := by
        rw [splitLines]
        exact if_pos rfl
      rw [hsplit]
      cases hcs : splitLines cs with
      | nil => exact absurd hcs (splitLines_ne_nil cs)
      | cons l2 ls2 =>
        rw [hcs] at ih
        rw [joinLines_cons_cons, ih]
        rfl
    · simp only [splitLines, if_neg hc]
      cases hcs : splitLines cs with
      | nil => exact absurd hcs (splitLines_ne_nil cs)
      | cons l2 ls2 =>
        rw [hcs] at ih
        cases ls2 with
        | nil =>
          rw [joinLines_single] at ih
          show joinLines [c :: l2] = c :: cs
          rw [joinLines_single, ih]
        | cons l3 ls3 =>
          rw [joinLines_cons_cons] at ih
          show joinLines ((c :: l2) :: l3 :: ls3) = c :: cs
          rw [joinLines_cons_cons, List.cons_append, ih]

/-- Splitting a newline-free line followed by a newline peels off that line. -/
theorem splitLines_append (l rest : List Char) (h : ('\n' : Char) ∉ l) :
    splitLines (l ++ '\n' :: rest) = l :: splitLines rest := by
  induction l with
  | nil => simp [splitLines]
  | cons c l' ih =>
    have hc : c ≠ '\n' := fun heq => h (heq ▸ List.mem_cons_self c l')
    have h' : ('\n' : Char) ∉ l' := fun hm => h (List.mem_cons_of_mem c hm)
    show splitLines (c :: (l' ++ '\n' :: rest)) = (c :: l') :: splitLines rest
    rw [splitLines, if_neg hc, ih h']

/-- The serialized header splits into its rendered lines, the closing
delimiter, and the body's lines. -/
theorem splitLines_header (attrs : List (List Char × List Char)) (body : List Char)
    (h : ∀ kv ∈ attrs, ('\n' : Char) ∉ kv.1 ∧ ('\n' : Char) ∉ kv.2) :
    splitLines ((attrs.map (fun kv => kv.1 ++ (chars ": " ++ (kv.2 ++ [('\n' : Char)])))).flatten
        ++ (chars "---\n" ++ body))
      = renderedLines attrs ++ chars "---" :: splitLines body := by
  induction attrs with
  | nil =>
    show splitLines (chars "---" ++ '\n' :: body) = chars "---" :: splitLines body
    exact splitLines_append _ _ (by decide)
  | cons kv rest ih =>
    obtain ⟨hk, hv⟩ := h kv (List.mem_cons_self kv rest)
    have hline : ('\n' : Char) ∉ kv.1 ++ chars ": " ++ kv.2 := by
      intro hm
      rcases List.mem_append.mp hm with hm' | hm'
      · rcases List.mem_append.mp hm' with hm'' | hm''
        · exact hk hm''
        · revert hm''
          decide
      · exact hv hm'
    have hshape :
        ((kv :: rest).map (fun kv => kv.1 ++ (chars ": " ++ (kv.2 ++ [('\n' : Char)])))).flatten
          ++ (chars "---\n" ++ body)
        = (kv.1 ++ chars ": " ++ kv.2)
          ++ '\n' :: ((rest.map (fun kv => kv.1 ++ (chars ": " ++ (kv.2 ++ [('\n' : Char)])))).flatten
              ++ (chars "---\n" ++ body)) := by
      simp [List.append_assoc]
    rw [hshape, splitLines_append _ _ hline, ih (fun kv0 h0 => h kv0 (List.mem_cons_of_mem kv h0))]
    rfl

/-- First occurrence of a character, after a block that avoids it. -/
theorem firstMatch_single (c : Char) (k rest : List Char) (h : c ∉ k) :
    firstMatch [c] (k ++ c :: rest) = some k.length := by
  induction k with
  | nil => simp [firstMatch, List.isPrefixOf]
  | cons x k' ih =>
    have hx : x ≠ c := fun heq => h (heq ▸ List.mem_cons_self x k')
    have h' : c ∉ k' := fun hm => h (List.mem_cons_of_mem x hm)
    have hpre : ([c].isPrefixOf (x :: (k' ++ c :: rest))) = false := by
      simp [List.isPrefixOf, Ne.symm hx]
    show firstMatch [c] (x :: (k' ++ c :: rest)) = some (k'.length + 1)
    rw [firstMatch, hpre]
    simp [ih h']

/-- Parsing a rendered `key: value` line recovers the pair (for keys without
a colon). -/
theorem parseKV_rendered (k v : List Char) (h : (':' : Char) ∉ k) :
    parseKV (k ++ chars ": " ++ v) = some (k, v) := by
  have hshape : k ++ chars ": " ++ v = k ++ ':' :: ' ' :: v := by
    simp [List.append_assoc]
    rfl
  have htake : (k ++ ':' :: ' ' :: v).take k.length = k := List.take_left k (':' :: ' ' :: v)
  have hdrop : (k ++ ':' :: ' ' :: v).drop (k.length + 1) = ' ' :: v := by
    have hsplit : k ++ ':' :: ' ' :: v = (k ++ [':']) ++ ' ' :: v := by simp
    rw [hsplit]
    exact List.drop_left' (by simp)
  rw [hshape]
  unfold parseKV
  rw [firstMatch_single ':' k (' ' :: v) h]
  show some ((k ++ ':' :: ' ' :: v).take k.length,
      if ((k ++ ':' :: ' ' :: v).drop (k.length + 1)).head? = some ' '
      then ((k ++ ':' :: ' ' :: v).drop (k.length + 1)).tail
      else (k ++ ':' :: ' ' :: v).drop (k.length + 1)) = some (k, v)
  rw [htake, hdrop]
  rfl

/-- Parsing the rendered header lines recovers the attribute map and hands
back the remaining lines. -/
theorem parseHeaderLines_rendered (attrs : List (List Char × List Char))
    (ls : List (List Char)) (h : ∀ kv ∈ attrs, (':' : Char) ∉ kv.1) :
    parseHeaderLines (renderedLines attrs ++ chars "---" :: ls) = some (attrs, ls) := by
  induction attrs with
  | nil => simp [renderedLines, parseHeaderLines]
  | cons kv rest ih =>
    have hline : kv.1 ++ chars ": " ++ kv.2 ≠ chars "---" := by
      intro heq
      have hmem : (':' : Char) ∈ kv.1 ++ chars ": " ++ kv.2 := by
        refine List.mem_append.mpr (Or.inl (List.mem_append.mpr (Or.inr ?_)))
        decide
      rw [heq] at hmem
      revert hmem
      decide
    show parseHeaderLines ((kv.1 ++ chars ": " ++ kv.2) :: (renderedLines rest ++ chars "---" :: ls))
      = some (kv :: rest, ls)
    rw [parseHeaderLines]
    rw [if_neg hline, parseKV_rendered kv.1 kv.2 (h kv (List.mem_cons_self kv rest)),
      ih (fun kv0 h0 => h kv0 (List.mem_cons_of_mem kv h0))]

/-- Without a closing delimiter line the header parse fails. -/
theorem parseHeaderLines_none (ls : List (List Char)) (h : chars "---" ∉ ls) :
    parseHeaderLines ls = none := by
  induction ls with
  | nil => rfl
  | cons l ls' ih =>
    have hl : l ≠ chars "---" := fun heq => h (heq ▸ List.mem_cons_self l ls')
    have h' : chars "---" ∉ ls' := fun hm => h (List.mem_cons_of_mem l hm)
    rw [parseHeaderLines, if_neg hl, ih h']
    cases parseKV l <;> rfl

/-- Membership characterization of the mismatch-occurrence list: it carries an
entry exactly for each line equal to the expected one, built by
`mkOccurrence` (1-based line number, character offset, one line of context on
each side). -/
theorem mem_occurrencesOf (lines : List (List Char)) (e : List Char) (o : Occurrence) :
    o ∈ occurrencesOf lines e ↔
      ∃ i, lines[i]? = some e ∧ o = mkOccurrence lines i := by
  unfold occurrencesOf
  rw [List.mem_filterMap]
  constructor
  · rintro ⟨i, hi, hfn⟩
    rw [List.mem_range] at hi
    rw [Option.ite_none_right_eq_some, Option.some.injEq] at hfn
    obtain ⟨hc, hmk⟩ := hfn
    refine ⟨i, ?_, hmk.symm⟩
    rw [List.getD_eq_getElem?_getD, List.getElem?_eq_getElem hi] at hc
    rw [List.getElem?_eq_getElem hi]
    simpa using hc
  · rintro ⟨i, hie, rfl⟩
    obtain ⟨hi, he⟩ := List.getElem?_eq_some_iff.mp hie
    refine ⟨i, List.mem_range.mpr hi, ?_⟩
    rw [Option.ite_none_right_eq_some, Option.some.injEq]
    refine ⟨?_, rfl⟩
    rw [List.getD_eq_getElem?_getD, hie]
    rfl

/-- When no line equals the expected one, the occurrence list is empty. -/
theorem occurrencesOf_eq_nil (lines : List (List Char)) (e : List Char)
    (h : ∀ l ∈ lines, l ≠ e) : occurrencesOf lines e = [] := by
  unfold occurrencesOf
  rw [List.filterMap_eq_nil_iff]
  intro i hi
  rw [List.mem_range] at hi
  rw [if_neg]
  rw [List.getD_eq_getElem?_getD, List.getElem?_eq_getElem hi]
  exact h _ (List.getElem_mem hi)

/--
C1: when `expectedLineBefore` is supplied and the line immediately preceding
the computed insertion point (as the code computes it, including the
beginning-of-document sentinel) is not string-equal to it, `insertContent`
leaves the document unchanged and returns a non-exception failure result
carrying the expected and actual lines and the list of every document line
equal to `expectedLineBefore`, each entry holding its 1-based line number,
character offset, and one line of context before and after; when
`expectedLineBefore` occurs nowhere in the document, that occurrence list is
empty (the `suggestedPositions` field is `null`).
-/
theorem C1_insert_mismatch (doc text : List Char) (pos : Option InsertPos) (e : List Char)
    (hmm : lineBeforeInsertion (splitLines doc) (insertionParams doc pos).2 ≠ e) :
    (insertContent doc pos text (some e)).success = false
    ∧ (insertContent doc pos text (some e)).newDoc = doc
    ∧ (insertContent doc pos text (some e)).expected = some e
    ∧ (insertContent doc pos text (some e)).actual =
        some (lineBeforeInsertion (splitLines doc) (insertionParams doc pos).2)
    ∧ suggestedList (insertContent doc pos text (some e)) = occurrencesOf (splitLines doc) e
    ∧ (∀ o, o ∈ suggestedList (insertContent doc pos text (some e)) ↔
        ∃ i, (splitLines doc)[i]? = some e ∧ o = mkOccurrence (splitLines doc) i)
    ∧ ((∀ l ∈ splitLines doc, l ≠ e) →
        (insertContent doc pos text (some e)).suggestedPositions = none) := by
  have hres : insertContent doc pos text (some e) =
      { success := false, newDoc := doc, expected := some e,
        actual := some (lineBeforeInsertion (splitLines doc) (insertionParams doc pos).2),
        curLine := (insertionParams doc pos).2 + 1,
        curChar := (insertionParams doc pos).1,
        suggestedPositions :=
          if (occurrencesOf (splitLines doc) e).isEmpty then none
          else some (occurrencesOf (splitLines doc) e) } := by
    simp only [insertContent]
    rw [if_pos hmm]
  refine ⟨by rw [hres], by rw [hres], by rw [hres], by rw [hres], ?_, ?_, ?_⟩
  · rw [hres]
    unfold suggestedList
    by_cases hocc : (occurrencesOf (splitLines doc) e).isEmpty
    · simp only [if_pos hocc]
      rw [List.isEmpty_iff] at hocc
      rw [hocc]
      rfl
    · simp only [if_neg hocc]
      rfl
  · intro o
    rw [hres]
    unfold suggestedList
    by_cases hocc : (occurrencesOf (splitLines doc) e).isEmpty
    · simp only [if_pos hocc]
      rw [List.isEmpty_iff] at hocc
      rw [← mem_occurrencesOf]
      simp [hocc]
    · simp only [if_neg hocc]
      exact mem_occurrencesOf (splitLines doc) e o
  · intro habsent
    rw [hres]
    simp [occurrencesOf_eq_nil (splitLines doc) e habsent]

/-- Witness for `C1_insert_mismatch` on document `"A\nB\nC"`, inserting at
position 4 (immediately before line `"C"`) with expected line `"Z"`, which
occurs nowhere: the call fails, mutates nothing, and suggests no positions. -/
theorem C1_witness :
    (insertContent (chars "A\nB\nC") (some (.num 4)) (chars "X") (some (chars "Z"))).success = false
    ∧ (insertContent (chars "A\nB\nC") (some (.num 4)) (chars "X") (some (chars "Z"))).newDoc =
        chars "A\nB\nC"
    ∧ (insertContent (chars "A\nB\nC") (some (.num 4)) (chars "X")
        (some (chars "Z"))).suggestedPositions = none := by
  have h := C1_insert_mismatch (chars "A\nB\nC") (chars "X") (some (.num 4)) (chars "Z")
    (by decide)
  exact ⟨h.1, h.2.1, h.2.2.2.2.2.2 (by decide)⟩

/-- The empty pattern matches everywhere, at index 0. -/
theorem firstMatch_nil_pat (l : List Char) : firstMatch ([] : List Char) l = some 0 := by
  cases l <;> simp [firstMatch, List.isPrefixOf]

/-- A failed `firstMatch` means the pattern occurs at no offset. -/
theorem firstMatch_none (pat l : List Char) (h : firstMatch pat l = none) :
    ∀ j, pat.isPrefixOf (l.drop j) = false := by
  induction l with
  | nil =>
    intro j
    rw [firstMatch] at h
    by_cases hp : pat.isEmpty
    · rw [if_pos hp] at h
      exact absurd h (by simp)
    · rw [List.drop_nil]
      cases pat with
      | nil => exact absurd rfl hp
      | cons c t => rfl
  | cons c t ih =>
    rw [firstMatch] at h
    by_cases hp : pat.isPrefixOf (c :: t) = true
    · rw [if_pos hp] at h
      exact absurd h (by simp)
    · rw [if_neg hp, Option.map_eq_none'] at h
      intro j
      cases j with
      | zero =>
        rw [List.drop_zero]
        simp only [Bool.not_eq_true] at hp
        exact hp
      | succ j' => exact ih h j'

/-- A successful `firstMatch` returns the least matching offset. -/
theorem firstMatch_some (pat l : List Char) (i : Nat) (h : firstMatch pat l = some i) :
    pat.isPrefixOf (l.drop i) = true ∧ ∀ j, j < i → pat.isPrefixOf (l.drop j) = false := by
  induction l generalizing i with
  | nil =>
    rw [firstMatch] at h
    by_cases hp : pat.isEmpty
    · rw [if_pos hp] at h
      injection h with h0
      subst h0
      refine ⟨?_, fun j hj => absurd hj (Nat.not_lt_zero j)⟩
      cases pat with
      | nil => rfl
      | cons c t => exact absurd hp (by simp)
    · rw [if_neg hp] at h
      exact absurd h (by simp)
  | cons c t ih =>
    rw [firstMatch] at h
    by_cases hp : pat.isPrefixOf (c :: t) = true
    · rw [if_pos hp] at h
      injection h with h0
      subst h0
      refine ⟨?_, fun j hj => absurd hj (Nat.not_lt_zero j)⟩
      rw [List.drop_zero]
      exact hp
    · rw [if_neg hp, Option.map_eq_some'] at h
      obtain ⟨i', hfm, hi⟩ := h
      subst hi
      obtain ⟨hpre, hmin⟩ := ih i' hfm
      refine ⟨hpre, ?_⟩
      intro j hj
      cases j with
      | zero =>
        rw [List.drop_zero]
        simp only [Bool.not_eq_true] at hp
        exact hp
      | succ j' => exact hmin j' (Nat.lt_of_succ_lt_succ hj)

/-- A failed `indexOf(e, start)` means no occurrence at or after `start`. -/
theorem indexOfFrom_none (s e : List Char) (start : Nat)
    (h : indexOfFrom s e start = none) (j : Nat) (hj : start ≤ j) :
    e.isPrefixOf (s.drop j) = false := by
  unfold indexOfFrom at h
  rw [Option.map_eq_none'] at h
  have hfm := firstMatch_none e (s.drop start) h (j - start)
  rw [List.drop_drop, Nat.add_sub_cancel' hj] at hfm
  exact hfm

/-- A successful `indexOf(e, start)` returns the least occurrence at or after
`start`. -/
theorem indexOfFrom_some (s e : List Char) (start i : Nat)
    (h : indexOfFrom s e start = some i) :
    start ≤ i ∧ e.isPrefixOf (s.drop i) = true
      ∧ ∀ j, start ≤ j → j < i → e.isPrefixOf (s.drop j) = false := by
  unfold indexOfFrom at h
  rw [Option.map_eq_some'] at h
  obtain ⟨i', hfm, hi⟩ := h
  subst hi
  obtain ⟨hpre, hmin⟩ := firstMatch_some e (s.drop start) i' hfm
  rw [List.drop_drop, Nat.add_comm start i'] at hpre
  refine ⟨Nat.le_add_left start i', hpre, ?_⟩
  intro j hjs hji
  have := hmin (j - start) (by omega)
  rw [List.drop_drop, Nat.add_sub_cancel' hjs] at this
  exact this

/-- A non-empty pattern can only occur strictly inside the text. -/
theorem match_pos_lt (s e : List Char) (i : Nat)
    (hpre : e.isPrefixOf (s.drop i) = true) (hne : e ≠ []) : i < s.length := by
  by_contra hge
  push_neg at hge
  rw [List.drop_eq_nil_of_le hge] at hpre
  cases e with
  | nil => exact hne rfl
  | cons c t => exact absurd hpre (by simp)

/-- The occurrence-collection loop of `deleteContent` enumerates exactly the
match positions at or after `start`, in increasing order, provided the fuel
covers the remaining text. -/
theorem collectOccs_spec (s e : List Char) (fuel : Nat) : ∀ start : Nat,
    s.length ≤ start + fuel →
    collectOccs s e start fuel =
      ((List.range' start (s.length - start)).filter
        (fun i => e.isPrefixOf (s.drop i))).map (mkDelOcc s e) := by
  induction fuel with
  | zero =>
    intro start h
    rw [collectOccs, Nat.sub_eq_zero_of_le (by omega : s.length ≤ start)]
    rfl
  | succ f ih =>
    intro start h
    rw [collectOccs]
    by_cases hlt : start < s.length
    · rw [if_pos hlt]
      cases hio : indexOfFrom s e start with
      | none =>
        rw [List.filter_eq_nil_iff.mpr, List.map_nil]
        intro x hx
        rw [List.mem_range'_1] at hx
        simp [indexOfFrom_none s e start hio x hx.1]
      | some i =>
        obtain ⟨his, hpre, hmin⟩ := indexOfFrom_some s e start i hio
        have hilt : i < s.length := by
          by_cases he : e = []
          · subst he
            have : indexOfFrom s [] start = some start := by
              unfold indexOfFrom
              rw [firstMatch_nil_pat]
              simp
            rw [this] at hio
            obtain rfl : start = i := by injection hio
            exact hlt
          · exact match_pos_lt s e i hpre he
        have hd1 : start + (i - start) = i := by omega
        have hd2 : (s.length - i) + (i - start) = s.length - start := by omega
        have hdecomp : List.range' start (s.length - start)
            = List.range' start (i - start) ++ List.range' i (s.length - i) :=
          calc List.range' start (s.length - start)
              = List.range' start ((s.length - i) + (i - start)) := by rw [hd2]
            _ = List.range' start (i - start)
                  ++ List.range' (start + (i - start)) (s.length - i) :=
                (List.range'_append_1 _ _ _).symm
            _ = List.range' start (i - start) ++ List.range' i (s.length - i) := by rw [hd1]
        have hfilter1 : (List.range' start (i - start)).filter
            (fun j => e.isPrefixOf (s.drop j)) = [] := by
          rw [List.filter_eq_nil_iff]
          intro x hx
          rw [List.mem_range'_1] at hx
          simp [hmin x hx.1 (by omega : x < i)]
        have hrange : List.range' i (s.length - i)
            = i :: List.range' (i + 1) (s.length - i - 1) := by
          have hsub : s.length - i = (s.length - i - 1) + 1 := by omega
          conv_lhs => rw [hsub]
          exact List.range'_succ _ _ _
        show mkDelOcc s e i :: collectOccs s e (i + 1) f
          = ((List.range' start (s.length - start)).filter
              (fun j => e.isPrefixOf (s.drop j))).map (mkDelOcc s e)
        rw [hdecomp, List.filter_append, hfilter1, hrange]
        simp only [List.filter_cons, hpre, if_true, List.nil_append, List.map_cons]
        rw [ih (i + 1) (by omega)]
        rw [show s.length - i - 1 = s.length - (i + 1) from by omega]
    · rw [if_neg hlt, Nat.sub_eq_zero_of_le (Nat.le_of_not_lt hlt)]
      rfl

/--
C2: for a document and a range with `expectedContent` supplied — when
`0 ≤ startPos < endPos ≤ len`: if the substring `[startPos, endPos)` does not
equal `expectedContent` after trimming surrounding whitespace from both
sides, `deleteContent` fails without mutating the document and returns every
verbatim occurrence of `expectedContent` in the document (start/end offsets
and surrounding context); if the trimmed strings are equal it removes exactly
the range `[startPos, endPos)`.  A range with `startPos < 0`, `endPos > len`,
or `startPos ≥ endPos` fails as malformed.
-/
theorem C2_delete_safety (s e : List Char) (a b : Int) :
    ((a < 0 ∨ b > (s.length : Int) ∨ a ≥ b) → deleteContent s a b (some e) = .invalid)
    ∧ (0 ≤ a → a < b → b ≤ (s.length : Int) →
        (jsTrim e ≠ jsTrim ((s.drop a.toNat).take (b.toNat - a.toNat)) →
            deleteContent s a b (some e) =
              .mismatch (delPreview ((s.drop a.toNat).take (b.toNat - a.toNat)))
                a.toNat b.toNat
                (if (matchPositions s e).isEmpty then none
                 else some ((matchPositions s e).map (mkDelOcc s e)))
            ∧ docAfterDelete s a b (some e) = s)
        ∧ (jsTrim e = jsTrim ((s.drop a.toNat).take (b.toNat - a.toNat)) →
            deleteContent s a b (some e) =
              .ok (s.take a.toNat ++ s.drop b.toNat) (b.toNat - a.toNat))) := by
  have hocc : collectOccs s e 0 (s.length + 1) = (matchPositions s e).map (mkDelOcc s e) := by
    rw [collectOccs_spec s e (s.length + 1) 0 (by omega)]
    unfold matchPositions
    rw [List.range_eq_range', Nat.sub_zero]
  have hie : ((matchPositions s e).map (mkDelOcc s e)).isEmpty = (matchPositions s e).isEmpty := by
    cases matchPositions s e <;> rfl
  constructor
  · intro h
    unfold deleteContent
    rw [if_pos h]
  · intro h0 h1 h2
    have hval : ¬(a < 0 ∨ b > (s.length : Int) ∨ a ≥ b) := by
      push_neg
      exact ⟨h0, h2, h1⟩
    constructor
    · intro hne
      have hres : deleteContent s a b (some e) =
          .mismatch (delPreview ((s.drop a.toNat).take (b.toNat - a.toNat)))
            a.toNat b.toNat
            (if (matchPositions s e).isEmpty then none
             else some ((matchPositions s e).map (mkDelOcc s e))) := by
        simp only [deleteContent]
        rw [if_neg hval, if_pos hne, hocc, hie]
      refine ⟨hres, ?_⟩
      unfold docAfterDelete
      rw [hres]
    · intro heq
      simp only [deleteContent]
      rw [if_neg hval, if_neg (fun hc => hc heq)]

/-- Witness for `C2_delete_safety` on `"hello world"`: the matching delete
yields `"helrld"`, the mismatching delete mutates nothing, and an empty range
is malformed. -/
theorem C2_witness :
    deleteContent (chars "hello world") 3 8 (some (chars "lo wo")) = .ok (chars "helrld") 5
    ∧ docAfterDelete (chars "hello world") 3 8 (some (chars "wrong")) = chars "hello world"
    ∧ deleteContent (chars "hello world") 0 0 (some (chars "x")) = .invalid := by
  refine ⟨?_, ?_, ?_⟩
  · rw [((C2_delete_safety (chars "hello world") (chars "lo wo") 3 8).2
      (by decide) (by decide) (by decide)).2 (by decide)]
    decide
  · exact (((C2_delete_safety (chars "hello world") (chars "wrong") 3 8).2
      (by decide) (by decide) (by decide)).1 (by decide)).2
  · exact (C2_delete_safety (chars "hello world") (chars "x") 0 0).1 (by decide)

/--
C8 (counterexample): the claim's round-trip law quantifies over *every*
attribute map and body, including the empty map.  `serialize({}, body)`
returns the body unchanged, so for a body that itself begins with a
well-formed front-matter header, `parse(serialize({}, body))` re-reads that
header instead of returning `({}, body)` — the law fails at
`attrs = {}`, `body = "---\na: 1\n---\nhi"`.
-/
theorem C8_counterexample :
    parseFM (serializeFM [] (chars "---\na: 1\n---\nhi"))
      ≠ ([], chars "---\na: 1\n---\nhi") := by
  decide

/--
C8 (amended): the round-trip law `parse(serialize(attrs, body)) = (attrs, body)`
holds for every *non-empty* attribute map whose keys contain no newline or
colon and whose values contain no newline, and every body string; serialize of
an empty attribute map returns the body unchanged; and parse of text without a
well-formed front-matter header (here: no closing `---` line) yields
`({}, originalText)`.
-/
theorem C8_roundtrip :
    (∀ (attrs : List (List Char × List Char)) (body : List Char),
      attrs ≠ [] →
      (∀ kv ∈ attrs, ('\n' : Char) ∉ kv.1 ∧ (':' : Char) ∉ kv.1 ∧ ('\n' : Char) ∉ kv.2) →
      parseFM (serializeFM attrs body) = (attrs, body))
    ∧ (∀ body, serializeFM [] body = body)
    ∧ (∀ text, chars "---" ∉ splitLines (text.drop 4) → parseFM text = ([], text)) := by
  refine ⟨?_, fun body => by simp [serializeFM], ?_⟩
  · intro attrs body hne h
    unfold serializeFM
    rw [if_neg hne]
    unfold parseFM
    rw [if_pos]
    · simp only [List.append_assoc]
      rw [List.drop_left' (show (chars "---\n").length = 4 from rfl)]
      rw [splitLines_header attrs body (fun kv hkv => ⟨(h kv hkv).1, (h kv hkv).2.2⟩)]
      rw [parseHeaderLines_rendered attrs (splitLines body) (fun kv hkv => (h kv hkv).2.1)]
      show (attrs, joinLines (splitLines body)) = (attrs, body)
      rw [joinLines_splitLines]
    · exact List.isPrefixOf_iff_prefix.mpr (List.prefix_append _ _)
  · intro text hmal
    unfold parseFM
    by_cases hpre : (chars "---\n").isPrefixOf text
    · rw [if_pos hpre, parseHeaderLines_none _ hmal]
    · rw [if_neg hpre]

/-- Witness for `C8_roundtrip` at `attrs = {a: 1}`, `body = "hi"`. -/
theorem C8_witness :
    parseFM (serializeFM [(chars "a", chars "1")] (chars "hi"))
      = ([(chars "a", chars "1")], chars "hi") :=
  C8_roundtrip.1 [(chars "a", chars "1")] (chars "hi") (by decide) (by decide)

/-- Lookup after a cons. -/
theorem assocLookup_cons {α : Type} (k' : List Char) (v' : α)
    (t : List (List Char × α)) (k : List Char) :
    assocLookup ((k', v') :: t) k = if k' = k then some v' else assocLookup t k := by
  by_cases h : k' = k <;> simp [assocLookup, List.find?_cons, h]

/-- Writing a file makes it readable with exactly the written payload. -/
theorem assocLookup_fsWrite_self (m : FileMap) (k : List Char) (v : FileData) :
    assocLookup (fsWrite m k v) k = some v := by
  induction m with
  | nil => simp [fsWrite, assocLookup_cons]
  | cons kv t ih =>
    obtain ⟨k', v'⟩ := kv
    by_cases hk : k' = k
    · simp [fsWrite, hk, assocLookup_cons]
    · simp [fsWrite, hk, assocLookup_cons, ih]

/-- Writing a file leaves every other name's lookup unchanged. -/
theorem assocLookup_fsWrite_ne (m : FileMap) (k : List Char) (v : FileData)
    (k' : List Char) (h : k' ≠ k) :
    assocLookup (fsWrite m k v) k' = assocLookup m k' := by
  induction m with
  | nil => simp [fsWrite, assocLookup_cons, Ne.symm h, assocLookup]
  | cons kv t ih =>
    obtain ⟨k1, v1⟩ := kv
    by_cases hk : k1 = k
    · subst hk
      simp [fsWrite, assocLookup_cons, Ne.symm h]
    · simp [fsWrite, hk, assocLookup_cons, ih]

/-- Unlinking a file removes its entry. -/
theorem assocLookup_fsErase_self (m : FileMap) (k : List Char) :
    assocLookup (fsErase m k) k = none := by
  unfold fsErase
  induction m with
  | nil => rfl
  | cons kv t ih =>
    obtain ⟨k1, v1⟩ := kv
    by_cases hk : k1 = k
    · simp [List.filter_cons, hk, ih]
    · simp [List.filter_cons, hk, assocLookup_cons, ih]

/-- Unlinking a file leaves every other name's lookup unchanged. -/
theorem assocLookup_fsErase_ne (m : FileMap) (k k' : List Char) (h : k' ≠ k) :
    assocLookup (fsErase m k) k' = assocLookup m k' := by
  unfold fsErase
  induction m with
  | nil => rfl
  | cons kv t ih =>
    obtain ⟨k1, v1⟩ := kv
    by_cases hk : k1 = k
    · subst hk
      simp [List.filter_cons, assocLookup_cons, Ne.symm h, ih]
    · simp [List.filter_cons, hk, assocLookup_cons, ih]

/-- The rename branch of `updateRows` on a single selected row: the new
content is written under the slug of the new title and the old path is
unlinked. -/
theorem updateRows_rename (dir : List Char) (files : FileMap) (u : Updates)
    (ids : List (List Char)) (r : Row) (fd : FileData) (t : List Char)
    (hu : u.titleU = some t) (ht : t ≠ []) (htd : t ≠ r.title)
    (hsel : selectByIds ids (getRows dir files) = [r])
    (hfd : assocLookup files r.fileName = some fd) :
    updateRows dir files u ids =
      some (fsErase (fsWrite files (generateSafeFileName t)
        ⟨cleanFm fd.fm u, newBody u fd.body⟩) r.fileName) := by
  unfold updateRows
  rw [hsel]
  simp only [List.foldlM, bind, Option.bind]
  rw [updateRowsStep, hfd, hu]
  simp [ht, htd]

/--
C7 (counterexample): the claim states that whenever `updates.title` differs
from a selected row's current title the file is renamed and the old path no
longer exists.  With `updates.title = ""` (which differs from the row title
`old`) the guard `updates.title && ...` is falsy, the code takes the
non-rename branch, and `old.md` still exists afterwards with its front matter
intact.
-/
theorem C7_counterexample :
    updEmptyTitle.titleU = some [] ∧
    (getRows (chars "/d") filesC7).map Row.title = [chars "old"] ∧
    ([] : List Char) ≠ chars "old" ∧
    updateRows (chars "/d") filesC7 updEmptyTitle [chars "/d/old.md"] = some filesC7After ∧
    assocLookup filesC7After (chars "old.md") =
      some ⟨[(chars "status", .str (chars "x"))], chars "b"⟩ := by
  refine ⟨rfl, by decide, by decide, by decide, by decide⟩

/--
C7 (amended): when `updates.title` is a *non-empty* string that differs from
a selected row's current title, and the slugged filename of the new title
differs from the row's current filename, `updateRows` renames the backing
file (write-new then delete-old): afterwards the old file path no longer
exists and a file named the slug of the new title exists whose front matter
is the row's old front matter merged with the updates, minus `title` and
`_content`.  (Stated for a single selected row.)
-/
theorem C7_title_rename (dir : List Char) (files : FileMap) (u : Updates)
    (ids : List (List Char)) (r : Row) (fd : FileData) (t : List Char)
    (hu : u.titleU = some t) (ht : t ≠ []) (htd : t ≠ r.title)
    (hsel : selectByIds ids (getRows dir files) = [r])
    (hfd : assocLookup files r.fileName = some fd)
    (hname : generateSafeFileName t ≠ r.fileName) :
    ∃ after, updateRows dir files u ids = some after
      ∧ assocLookup after r.fileName = none
      ∧ assocLookup after (generateSafeFileName t) =
          some ⟨cleanFm fd.fm u, newBody u fd.body⟩ := by
  refine ⟨_, updateRows_rename dir files u ids r fd t hu ht htd hsel hfd, ?_, ?_⟩
  · exact assocLookup_fsErase_self _ _
  · rw [assocLookup_fsErase_ne _ _ _ hname]
    exact assocLookup_fsWrite_self _ _ _

/-- The `old.md` row as `getRows` materializes it from `filesC7`/`filesC10`. -/
def rowOld : Row :=
  { id := chars "/d/old.md", filePath := chars "/d/old.md", fileName := chars "old.md",
    title := chars "old", fields := [(chars "status", .str (chars "x"))],
    contentPreview := chars "b" }

/-- Witness for `C7_title_rename`: renaming `old` to `New` moves the file to
`new.md` and removes `old.md`. -/
theorem C7_witness :
    ∃ after, updateRows (chars "/d") filesC7 updNewTitle [chars "/d/old.md"] = some after
      ∧ assocLookup after (chars "old.md") = none
      ∧ assocLookup after (generateSafeFileName (chars "New")) =
          some ⟨cleanFm fdOld.fm updNewTitle, newBody updNewTitle fdOld.body⟩ :=
  C7_title_rename (chars "/d") filesC7 updNewTitle [chars "/d/old.md"] rowOld fdOld
    (chars "New") rfl (by decide) (by decide) (by decide) (by decide) (by decide)

/-- The collision loop of `addRows` resolves a taken slug to `base-1.md` when
that name is free. -/
theorem uniqueFileName_collision (names : List (List Char)) (fn : List Char)
    (h1 : fn ∈ names)
    (h2 : replaceFirst (chars ".md") [] fn ++ chars "-1.md" ∉ names) :
    uniqueFileName names fn = replaceFirst (chars ".md") [] fn ++ chars "-1.md" := by
  unfold uniqueFileName
  rw [if_pos h1]
  have hcand : replaceFirst (chars ".md") [] fn ++ chars "-" ++ natChars 1 ++ chars ".md"
      = replaceFirst (chars ".md") [] fn ++ chars "-1.md" := by
    simp only [List.append_assoc]
    rw [show chars "-" ++ (natChars 1 ++ chars ".md") = chars "-1.md" from by decide]
  show uniqueAux names (replaceFirst (chars ".md") [] fn) 1 (names.length + 1) = _
  simp only [uniqueAux, hcand]
  simp [h2]

/--
C10: a title rename in `updateRows` writes to the filename slugified from the
new title with no collision de-duplication — if a different row's file already
bears that name its content is silently overwritten (and the renamed row's old
path is removed) — whereas `addRows` appends `-1` (then `-2`, …) to the slug
until the filename is unique, leaving the existing file untouched.
-/
theorem C10_rename_overwrites :
    (∀ (dir : List Char) (files : FileMap) (u : Updates) (ids : List (List Char))
        (r : Row) (fd other : FileData) (t : List Char),
      u.titleU = some t → t ≠ [] → t ≠ r.title →
      selectByIds ids (getRows dir files) = [r] →
      assocLookup files r.fileName = some fd →
      generateSafeFileName t ≠ r.fileName →
      assocLookup files (generateSafeFileName t) = some other →
      ∃ after, updateRows dir files u ids = some after
        ∧ assocLookup after (generateSafeFileName t) =
            some ⟨cleanFm fd.fm u, newBody u fd.body⟩
        ∧ assocLookup after r.fileName = none)
    ∧ (∀ (files : FileMap) (rowData : Updates) (t : List Char),
        rowData.titleU = some t → t ≠ [] →
        generateSafeFileName t ∈ files.map Prod.fst →
        replaceFirst (chars ".md") [] (generateSafeFileName t) ++ chars "-1.md"
          ∉ files.map Prod.fst →
        (addRow files rowData).2 =
          replaceFirst (chars ".md") [] (generateSafeFileName t) ++ chars "-1.md"
        ∧ assocLookup (addRow files rowData).1 (generateSafeFileName t) =
            assocLookup files (generateSafeFileName t)) := by
  constructor
  · intro dir files u ids r fd other t hu ht htd hsel hfd hname hother
    refine ⟨_, updateRows_rename dir files u ids r fd t hu ht htd hsel hfd, ?_, ?_⟩
    · rw [assocLookup_fsErase_ne _ _ _ hname]
      exact assocLookup_fsWrite_self _ _ _
    · exact assocLookup_fsErase_self _ _
  · intro files rowData t hu ht hmem hfree
    have htitle :
        (match rowData.titleU with
          | some t0 => if t0 = [] then chars "Untitled" else t0
          | none => chars "Untitled") = t := by
      rw [hu]
      simp [ht]
    have hunique : uniqueFileName (files.map Prod.fst) (generateSafeFileName t)
        = replaceFirst (chars ".md") [] (generateSafeFileName t) ++ chars "-1.md" :=
      uniqueFileName_collision _ _ hmem hfree
    have hne : replaceFirst (chars ".md") [] (generateSafeFileName t) ++ chars "-1.md"
        ≠ generateSafeFileName t := by
      intro heq
      rw [heq] at hfree
      exact hfree hmem
    constructor
    · show (addRow files rowData).2 = _
      unfold addRow
      rw [htitle]
      simp only [hunique]
    · show assocLookup (addRow files rowData).1 _ = _
      unfold addRow
      rw [htitle]
      simp only [hunique]
      exact assocLookup_fsWrite_ne _ _ _ _ (Ne.symm hne)

/-- Witness for `C10_rename_overwrites`: renaming `old` to `New` while
`new.md` belongs to another row overwrites that file; adding a row titled
`New` to the same directory creates `new-1.md` instead and leaves `new.md`
alone. -/
theorem C10_witness :
    (∃ after, updateRows (chars "/d") filesC10 updNewTitle [chars "/d/old.md"] = some after
      ∧ assocLookup after (generateSafeFileName (chars "New")) =
          some ⟨cleanFm fdOld.fm updNewTitle, newBody updNewTitle fdOld.body⟩
      ∧ assocLookup after (chars "old.md") = none)
    ∧ ((addRow filesC10 rowDataNew).2 =
          replaceFirst (chars ".md") [] (generateSafeFileName (chars "New")) ++ chars "-1.md"
        ∧ assocLookup (addRow filesC10 rowDataNew).1 (generateSafeFileName (chars "New")) =
            assocLookup filesC10 (generateSafeFileName (chars "New"))) :=
  ⟨C10_rename_overwrites.1 (chars "/d") filesC10 updNewTitle [chars "/d/old.md"] rowOld
      fdOld fdOther (chars "New") rfl (by decide) (by decide) (by decide) (by decide)
      (by decide) (by decide),
   C10_rename_overwrites.2 filesC10 rowDataNew (chars "New") rfl (by decide) (by decide)
      (by decide)⟩

/-- Witness for `C6_delete_column`: deleting the protected `title` column
fails; deleting `status` from the sample database leaves a schema, view set,
and row set free of `status` references. -/
theorem C6_witness :
    deleteColumnOp cfgC6 filesC6 (chars "title") = none ∧
      (∀ v ∈ cfgC6After.views,
        (∀ f ∈ v.filters, f.column ≠ chars "status") ∧
        (∀ s ∈ v.sorts, s.column ≠ chars "status")) ∧
      (∀ nf ∈ filesC6After, ∀ kv ∈ nf.2.fm, kv.1 ≠ chars "status") := by
  refine ⟨(C6_delete_column cfgC6 filesC6 (chars "title")).1 rfl, ?_, ?_⟩
  · exact ((C6_delete_column cfgC6 filesC6 (chars "status")).2.2 cfgC6After filesC6After colC6
      (by decide)).2.1
  · exact ((C6_delete_column cfgC6 filesC6 (chars "status")).2.2 cfgC6After filesC6After colC6
      (by decide)).2.2.1

end Hillnote
